import Mathlib

/-!
Verification development for the incremental page-tree builder of the
better_doctool repository (hotdoc). The Python sources embedded here are
src/hotdoc/core/doc_tree.py and src/hotdoc/core/doc_tool.py.

Modelling conventions:
 - Python dict / OrderedDict -> association list `List (String × α)` with
   `insertA` (replace in place when the key is present, append otherwise;
   this matches OrderedDict assignment, which keeps the position of an
   existing key).
 - Python OrderedSet (hotdoc.utils.utils.OrderedSet) -> `List String` with
   `osAdd` (no duplicate, keeps first position).
 - The filesystem is a parameter: an association list from path to
   `FileInfo` (modification time, CommonMark ast, raw source lines).
   `os.path.exists p` is `(lookupA fs p).isSome`; `os.path.getmtime` reads
   the same entry. CommonMark parsing itself is an external collaborator,
   so the ast that `CommonMark.Parser().parse` would produce for a file is
   carried directly by the filesystem entry.
 - Methods that mutate `self` become functions threading the mutated
   state explicitly.
 - Unbounded recursion (DocTree.walk, DocTree.__do_build_tree,
   Page.__query_extra_symbols) is given a fuel argument; `none` models a
   run that does not finish (either a Python exception or divergence).
-/

/-- Lookup in an association list, first binding wins (Python dict get). -/
def lookupA {α : Type} (m : List (String × α)) (k : String) : Option α :=
  match m with
  | [] => none
  | (k', v) :: rest => if k' = k then some v else lookupA rest k

/-- Dict assignment `m[k] = v`: replace in place if present, else append.
This is the OrderedDict semantics used by `Page.subpages` and
`Page.headers`. -/
def insertA {α : Type} (m : List (String × α)) (k : String) (v : α) :
    List (String × α) :=
  match m with
  | [] => [(k, v)]
  | (k', v') :: rest =>
      if k' = k then (k', v) :: rest else (k', v') :: insertA rest k v

/-- OrderedSet.add: no duplicate, an already present element keeps its
position. -/
def osAdd (l : List String) (x : String) : List String :=
  if x ∈ l then l else l ++ [x]

/-- Python truthiness of an optional string: `None` and the empty string
are falsy. -/
def truthyS : Option String → Bool
  | none => false
  | some s => s ≠ ""

/-- Python `a or b` on optional strings. -/
def pyOr (a b : Option String) : Option String :=
  if truthyS a then a else b

/-- Characters stripped by `name.strip` in `PageParser.__parse_para`:
the call is `label.strip` with the character set of brackets, parens and
space. -/
def stripSet : List Char := ['[', ']', '(', ')', ' ']

/-- Python `str.strip(chars)`: drop members of the set from both ends. -/
def stripChars (cs : List Char) (s : String) : String :=
  String.mk (((s.toList.dropWhile (· ∈ cs)).reverse.dropWhile (· ∈ cs)).reverse)

/-- Python `os.path.join(prefix, d)` for the cases exercised here (no
absolute-path override). -/
def pathJoin (pfx d : String) : String :=
  if pfx = "" then d else pfx ++ "/" ++ d

/-- Python `os.path.basename`. -/
def pathBasename (s : String) : String :=
  String.mk ((s.toList.reverse.takeWhile (· ≠ '/')).reverse)

/-- Stem of `os.path.splitext(basename)`: cut at the last dot of the base
name, unless the dot is the leading character. -/
def splitextStem (s : String) : String :=
  let cs := s.toList
  let afterDot := cs.reverse.takeWhile (· ≠ '.')
  if afterDot.length = cs.length ∨ afterDot.length + 1 = cs.length ∧ cs.head? = some '.' then
    s
  else
    String.mk (cs.take (cs.length - afterDot.length - 1))

/-- CommonMark ast node as used by doc_tree.py: a type tag `t`, a link
destination (empty string models both `None` and the falsy empty
destination), a literal (for text nodes), the source-position line span
`sourcepos` and the child nodes (`first_child` / `nxt` chain). -/
inductive MdNode where
  | mk (t : String) (destination : String) (literal : String)
       (spStart : Nat) (spEnd : Nat) (children : List MdNode)

def MdNode.t : MdNode → String
  | .mk t _ _ _ _ _ => t

def MdNode.destination : MdNode → String
  | .mk _ d _ _ _ _ => d

def MdNode.literal : MdNode → String
  | .mk _ _ l _ _ _ => l

def MdNode.spStart : MdNode → Nat
  | .mk _ _ _ s _ _ => s

def MdNode.spEnd : MdNode → Nat
  | .mk _ _ _ _ e _ => e

def MdNode.children : MdNode → List MdNode
  | .mk _ _ _ _ _ cs => cs

/-- Function `_get_label(link)` (non recursive form): concatenation of the
literals of the direct children. -/
def getLabel (n : MdNode) : String :=
  String.join (n.children.map MdNode.literal)

/-- One filesystem entry: modification time, the CommonMark ast the
external parser yields for the file contents (after include expansion),
and the raw source lines (used by `linecache.getline`). -/
structure FileInfo where
  mtime : Int
  ast : MdNode
  lines : List String

/-- The filesystem visible to a run. -/
def FsT : Type := List (String × FileInfo)

/-- Python `linecache.getline(path, i)` with 1-based `i`; missing lines
give the empty string. -/
def getline (fi : FileInfo) (i : Nat) : String :=
  if h : 1 ≤ i ∧ i - 1 < fi.lines.length then
    fi.lines.get ⟨i - 1, h.2⟩
  else ""

/-- Modelled from the spec: hotdoc.core.links.Link is outside src/; from
its uses in doc_tree.py it carries a target reference, a display title and
an id, built as `Link(pagename, name, name)`. -/
structure Link where
  ref : String
  title : String
  id_ : String
deriving DecidableEq

/-- Symbol classes listed in `Page.resolve_symbols`. -/
inductive SymKind where
  | base | functionSym | callbackSym | functionMacroSym | constantSym
  | exportedVariableSym | structSym | enumSym | aliasSym | signalSym
  | propertySym | vfunctionSym | classSym
deriving DecidableEq

/-- Modelled from the spec: hotdoc.core.symbols is outside src/; a symbol
as consumed by `Page.__resolve_symbol` has a unique name, a class, a link
and possibly a comment carrying a short description and a title. -/
structure HSym where
  unique_name : String
  kind : SymKind
  link : Link
  hasComment : Bool
  commentShort : Option String
  commentTitle : Option String

/-- ParsedHeader namedtuple of PageParser: the children of the heading
node and the original destination path. -/
structure ParsedHeader where
  ast_node : List MdNode
  original_destination : String

/-- The Page class of doc_tree.py, with the attributes set by
`Page.__init__`. `output_attrs` is `None` or a (reset) defaultdict, which
only its presence matters for; `typed_symbols` maps symbol classes to a
section name and the symbols gathered there. -/
structure Page where
  symbol_names : List String
  subpages : List (String × Option String)
  link : Link
  title : Option String
  short_description : Option String
  first_header : Option String
  first_paragraph : Option String
  source_file : String
  output_attrs : Option Unit
  extension_name : Option String
  is_stale : Bool
  ast : Option MdNode
  headers : List (String × ParsedHeader)
  reference_map : List String
  typed_symbols : List (SymKind × (String × List HSym))
  symbols : List (Option HSym)
  formatted_contents : Option String
  detailed_description : Option String
  mtime : Int

/-- Page.__init__. The mtime is `os.path.getmtime(source_file)` with
`OSError` giving -1. -/
def Page.init (fs : FsT) (source_file : String) (ast : Option MdNode)
    (extension_name : Option String) : Page :=
  let name := splitextStem (pathBasename source_file)
  let pagename := name ++ ".html"
  { symbol_names := []
    subpages := []
    link := ⟨pagename, name, name⟩
    title := none
    short_description := none
    first_header := none
    first_paragraph := none
    source_file := source_file
    output_attrs := none
    extension_name := extension_name
    is_stale := true
    ast := ast
    headers := []
    reference_map := []
    typed_symbols := []
    symbols := []
    formatted_contents := none
    detailed_description := none
    mtime := match lookupA fs source_file with
             | some fi => fi.mtime
             | none => -1 }

/-- Page.__getstate__: the dictionary pickled for a page. Unpickling
restores exactly this dictionary as the attributes of the loaded page, so
the loaded page is `Page.getstate p`. -/
def Page.getstate (p : Page) : Page :=
  { symbol_names := p.symbol_names
    subpages := p.subpages
    link := p.link
    title := p.title
    short_description := p.short_description
    first_header := p.first_header
    first_paragraph := p.first_paragraph
    source_file := p.source_file
    output_attrs := none
    extension_name := p.extension_name
    is_stale := false
    ast := none
    headers := []
    reference_map := p.reference_map
    typed_symbols := []
    symbols := []
    formatted_contents := none
    detailed_description := none
    mtime := p.mtime }

/-- Page.add_symbol with no subscriber connected to the class-level
`adding_symbol_signal` (a freshly started process has none; DocTree only
connects its handler at the end of `__update_symbol_maps`). -/
def Page.add_symbol (p : Page) (unique_name : String) : Page :=
  { p with symbol_names := osAdd p.symbol_names unique_name }

/-- PageParser.__parse_para: called on a Paragraph node with exactly one
child. If that child is a Link with a falsy destination and a truthy
label, the stripped label is added as a symbol name and True is returned
(the caller then unlinks the list item; that ast mutation only affects
rendering and is not tracked here, the stored ast being transient). -/
def parsePara (page : Page) (paragraph : MdNode) : Page × Bool :=
  match paragraph.children.head? with
  | none => (page, false)
  | some link_node =>
      if link_node.t = "Link" ∧ link_node.destination = "" ∧ getLabel link_node ≠ "" then
        (page.add_symbol (stripChars stripSet (getLabel link_node)), true)
      else
        (page, false)

/-- PageParser.__parse_list_node: for every list item, every grandchild
that is a Paragraph with a single child goes through __parse_para. -/
def parseListNode (page : Page) (list_node : MdNode) : Page :=
  list_node.children.foldl
    (fun pg child =>
      child.children.foldl
        (fun pg2 g =>
          if g.t = "Paragraph" ∧ g.children.length = 1 then (parsePara pg2 g).1
          else pg2)
        pg)
    page

/-- Well-known-name table of the parser: the result a registered callback
would return for a destination (subpage, subfolder, handling extension). -/
def WknT : Type := List (String × (String × Option String × Option String))

/-- Concatenation of the source lines spanned by a Paragraph node,
mirroring the `linecache.getline` loop of PageParser.__check_links. -/
def paragraphText (fs : FsT) (source_file : String) (s e : Nat) : String :=
  match lookupA fs source_file with
  | none => ""
  | some fi => String.join ((List.range' s (e + 1 - s)).map (getline fi))

/-- Processing of a single node by PageParser.__check_links (everything
except the recursion into the children). The state is the parser-level
`__seen_pages` set together with the page under construction. Destination
rewrites on the ast nodes are not tracked (the ast is transient). -/
def checkLinksNode (pfx : String) (fs : FsT) (wkn : WknT) (node : MdNode)
    (parent : Option MdNode) (st : List String × Page) : List String × Page :=
  let (seen, page) := st
  if node.t = "Link" then
    let path : Option String :=
      if node.destination ≠ "" then
        let p := pathJoin pfx node.destination
        if (lookupA fs p).isSome then some p else none
      else none
    match lookupA wkn node.destination with
    | some (subpage, _subfolder, extension_name) =>
        (seen, { page with subpages := insertA page.subpages subpage extension_name })
    | none =>
        match parent, path with
        | some pn, some p =>
            if pn.t = "Heading" then
              let seenNow := p ∈ seen
              let seen' := if seenNow then seen else osAdd seen p
              let subpages' :=
                if seenNow then page.subpages
                else insertA page.subpages p page.extension_name
              let original_name := getLabel node
              (seen',
               { page with
                   subpages := subpages'
                   headers := insertA page.headers original_name ⟨pn.children, p⟩ })
            else (seen, page)
        | _, _ => (seen, page)
  else if node.t = "Heading" ∧ ¬ truthyS page.first_header then
    (seen, { page with first_header := some (getLabel node) })
  else if node.t = "Paragraph" ∧ ¬ truthyS page.first_paragraph then
    (seen,
     { page with
         first_paragraph :=
           some (paragraphText fs page.source_file node.spStart node.spEnd) })
  else (seen, page)

mutual

/-- PageParser.__check_links: process the node, then recurse into its
children with the node as parent. -/
def checkLinks (pfx : String) (fs : FsT) (wkn : WknT) :
    MdNode → Option MdNode → List String × Page → List String × Page
  | node@(.mk _ _ _ _ _ cs), parent, st =>
      checkLinksList pfx fs wkn cs (some node) (checkLinksNode pfx fs wkn node parent st)

/-- The `for _ in _get_children(node)` loop of __check_links. -/
def checkLinksList (pfx : String) (fs : FsT) (wkn : WknT) :
    List MdNode → Option MdNode → List String × Page → List String × Page
  | [], _, st => st
  | n :: rest, parent, st =>
      checkLinksList pfx fs wkn rest parent (checkLinks pfx fs wkn n parent st)

end

/-- PageParser.parse. A missing source file gives None; otherwise the
page is built by Page.__init__ from the ast produced by the external
CommonMark parser for the file contents, List children are scanned for
symbol entries and __check_links runs over the whole ast. The parser
state `seen` is the `__seen_pages` set, which persists across the parse
calls of one DocTree. -/
def parsePage (pfx : String) (fs : FsT) (wkn : WknT) (seen : List String)
    (source_file : String) (extension_name : Option String) :
    List String × Option Page :=
  match lookupA fs source_file with
  | none => (seen, none)
  | some fi =>
      let page0 := Page.init fs source_file (some fi.ast) extension_name
      let page1 := fi.ast.children.foldl
        (fun pg c => if c.t = "List" then parseListNode pg c else pg) page0
      let (seen', page2) := checkLinks pfx fs wkn fi.ast none (seen, page1)
      (seen', some page2)

/-- Page-map plus the parser-level seen set threaded through
DocTree.__do_build_tree. -/
structure TreeState where
  pages : List (String × Page)
  seen : List String

/-- The `for subpage, extension_name in page.subpages.items()` loop of
DocTree.__do_build_tree; `build` is the recursive call one level deeper. -/
def doBuildTreeList
    (build : TreeState → String → Option String → Option TreeState) :
    TreeState → List (String × Option String) → Option TreeState
  | st, [] => some st
  | st, (subpage, ext) :: rest =>
      match build st subpage ext with
      | none => none
      | some st' => doBuildTreeList build st' rest

/-- DocTree.__do_build_tree. The existing page is reused when the caller
extension matches and the file mtime equals the recorded one (or
`os.path.getmtime` raises OSError); otherwise the file is reparsed. A
parse returning None makes Python store None and crash on
`page.subpages`, aborting the run: modelled as `none`. Fuel bounds the
recursion depth; `none` also models a run that does not finish. -/
def doBuildTree (pfx : String) (fs : FsT) (wkn : WknT) :
    Nat → TreeState → String → Option String → Option TreeState
  | 0 => fun _ _ _ => none
  | fuel + 1 => fun st source_file extension_name =>
      let reuse : Option Page :=
        match lookupA st.pages source_file with
        | some epage =>
            if extension_name = epage.extension_name then
              match lookupA fs source_file with
              | some fi => if fi.mtime = epage.mtime then some epage else none
              | none => some epage
            else none
        | none => none
      match reuse with
      | some page =>
          doBuildTreeList (doBuildTree pfx fs wkn fuel)
            { st with pages := insertA st.pages source_file page } page.subpages
      | none =>
          match parsePage pfx fs wkn st.seen source_file extension_name with
          | (_, none) => none
          | (seen', some page) =>
              doBuildTreeList (doBuildTree pfx fs wkn fuel)
                { pages := insertA st.pages source_file page, seen := seen' }
                page.subpages

/-- The symbol dependency map of DocTree: for each symbol name, the
ordered map from owning source file to page (`__symbol_maps`). -/
def SymbolMaps : Type := List (String × List (String × Page))

/-- DocTree.__add_to_symbol_map:
`self.__symbol_maps[unique_name][page.source_file] = page`. -/
def addToSymbolMap (maps : SymbolMaps) (page : Page) (unique_name : String) :
    SymbolMaps :=
  insertA maps unique_name
    (insertA ((lookupA maps unique_name).getD []) page.source_file page)

/-- Python `set(l1) != set(l2)` on key lists. -/
def keySetNe (l1 l2 : List String) : Bool :=
  ¬ (l1.all (· ∈ l2) ∧ l2.all (· ∈ l1))

/-- Keys of the inner map recorded for a symbol (empty for an absent
symbol: both maps are defaultdicts). -/
def symbolMapKeys (maps : SymbolMaps) (unique_name : String) : List String :=
  ((lookupA maps unique_name).getD []).map Prod.fst

/-- DocTree.__symbol_has_moved: in an incremental run, a symbol has moved
when the key set recorded for it in the current map differs from the one
of the previous run. -/
def symbolHasMoved (incremental : Bool) (maps prev : SymbolMaps)
    (unique_name : String) : Bool :=
  if ¬ incremental then false
  else keySetNe (symbolMapKeys maps unique_name) (symbolMapKeys prev unique_name)

/-- One step of the inner loop of DocTree.__update_symbol_maps: add the
symbol under the page, then test __symbol_has_moved against the partially
filled map and record the symbol as moved if so. -/
def updateSymbolStep (incremental : Bool) (prev : SymbolMaps) (page : Page)
    (acc : SymbolMaps × List String) (name : String) :
    SymbolMaps × List String :=
  let maps' := addToSymbolMap acc.1 page name
  if symbolHasMoved incremental maps' prev name then (maps', osAdd acc.2 name)
  else (maps', acc.2)

/-- The `for name in page.symbol_names` loop of __update_symbol_maps. -/
def updateSymbolPage (incremental : Bool) (prev : SymbolMaps)
    (acc : SymbolMaps × List String) (kp : String × Page) :
    SymbolMaps × List String :=
  kp.2.symbol_names.foldl (updateSymbolStep incremental prev kp.2) acc

/-- DocTree.__update_symbol_maps: walk every page and every symbol name,
fill the current symbol map, and accumulate the set of moved symbols (the
moved check runs inside the loop, against the partially filled map). The
pages themselves are not touched. The final
`Page.adding_symbol_signal.connect` only affects later `add_symbol`
calls. -/
def updateSymbolMaps (incremental : Bool) (prev : SymbolMaps)
    (pages : List (String × Page)) : SymbolMaps × List String :=
  pages.foldl (updateSymbolPage incremental prev)
    (([] : SymbolMaps), ([] : List String))

/-- DocTree.build_tree: __do_build_tree, then __update_symbol_maps, then
the root is looked up in the page map; the root page and the moved
symbols are returned. -/
def buildTree (pfx : String) (fs : FsT) (wkn : WknT) (incremental : Bool)
    (prev : SymbolMaps) (fuel : Nat) (st : TreeState) (source_file : String)
    (extension_name : Option String) :
    Option (TreeState × SymbolMaps × List String × Page) :=
  match doBuildTree pfx fs wkn fuel st source_file extension_name with
  | none => none
  | some st' =>
      let (maps, moved) := updateSymbolMaps incremental prev st'.pages
      match lookupA st'.pages source_file with
      | none => none
      | some root => some (st', maps, moved, root)

/-- DocTree.persist on the page map: pickling stores Page.__getstate__
for every page, and unpickling restores exactly that state, so the page
map read back at the next run is the image of the current one under
`Page.getstate`. -/
def persistPages (pages : List (String × Page)) : List (String × Page) :=
  pages.map (fun kp => (kp.1, Page.getstate kp.2))

/-- The `for cpage_name in parent.subpages` loop of DocTree.walk: yield
the subpage, then its whole subtree (`sub`, produced by the nested
generator `g`, the traversal one level deeper). A missing page name
raises KeyError in Python: modelled as `none`. -/
def walkList (pages : List (String × Page)) (g : Page → Option (List Page)) :
    List (String × Option String) → Option (List Page)
  | [] => some []
  | (name, _) :: rest =>
      match lookupA pages name with
      | none => none
      | some cpage =>
          match g cpage with
          | none => none
          | some sub =>
              match walkList pages g rest with
              | none => none
              | some restL => some (cpage :: (sub ++ restL))

/-- The `walk(parent=cpage)` part of DocTree.walk (the generator entered
with a non-None parent): the subtrees below a page, without the page
itself. Running out of fuel models the generator recursing forever on a
cyclic page graph. -/
def walkSub (pages : List (String × Page)) : Nat → Page → Option (List Page)
  | 0 => fun _ => none
  | fuel + 1 => fun parent => walkList pages (walkSub pages fuel) parent.subpages

/-- DocTree.walk entered with `parent=None`: the root is yielded first,
then the subtrees below it. -/
def walk (pages : List (String × Page)) (fuel : Nat) (root : Page) :
    Option (List Page) :=
  (walkSub pages fuel root).map (root :: ·)

/-- Declared page tree, for stating what pre-order traversal means. -/
inductive PTree where
  | node : Page → List PTree → PTree

mutual

/-- Pre-order in the words of the spec: the root first, then each
subpage's entire subtree, in declared subpage order. -/
def PTree.preorder : PTree → List Page
  | .node p cs => p :: preorderList cs

def preorderList : List PTree → List Page
  | [] => []
  | t :: ts => t.preorder ++ preorderList ts

end

/-- Children unfolding for `unfoldTree`; `g` unfolds one level deeper. -/
def unfoldList (pages : List (String × Page)) (g : Page → Option PTree) :
    List (String × Option String) → Option (List PTree)
  | [] => some []
  | (name, _) :: rest =>
      match lookupA pages name with
      | none => none
      | some cpage =>
          match g cpage with
          | none => none
          | some t =>
              match unfoldList pages g rest with
              | none => none
              | some ts => some (t :: ts)

/-- Unfolding of the page map into the declared tree below a page, with
the same fuel accounting as `walkSub`. -/
def unfoldTree (pages : List (String × Page)) : Nat → Page → Option PTree
  | 0 => fun _ => none
  | fuel + 1 => fun p =>
      (unfoldList pages (unfoldTree pages fuel) p.subpages).map (PTree.node p)

/-- An extension as seen by the ChangeTracker of doc_tool.py: its
EXTENSION_NAME, the source files it currently lists, and the stale set
`set_stale_source_files` stores on it. -/
structure Extension where
  ext_name : String
  source_files : List String
  stale_sources : List String

/-- ChangeTracker of doc_tool.py: per extension name, the file mtimes
recorded by the previous `update_extension_sources_mtimes`. -/
structure ChangeTracker where
  exts_mtimes : List (String × List (String × Int))

/-- ChangeTracker.update_extension_sources_mtimes: record the current
mtimes of the extension sources under its name (the loop builds a dict,
later duplicates overwriting earlier ones). `getmtime` is the filesystem
at call time; an OSError would abort the run and is not modelled. -/
def updateExtensionSourcesMtimes (tracker : ChangeTracker)
    (getmtime : String → Int) (ext : Extension) : ChangeTracker :=
  { exts_mtimes :=
      insertA tracker.exts_mtimes ext.ext_name
        (ext.source_files.foldl (fun m sf => insertA m sf (getmtime sf)) []) }

/-- ChangeTracker.mark_extension_stale_sources: a source file is appended
to the stale list when it is absent from the previous mtimes recorded for
this extension (an extension never seen before has an empty record), or
when its current mtime differs from the recorded one. The tracker itself
is only read; the stale list is stored on the extension. -/
def markExtensionStaleSources (tracker : ChangeTracker)
    (getmtime : String → Int) (ext : Extension) : ChangeTracker × Extension :=
  let prev_mtimes := (lookupA tracker.exts_mtimes ext.ext_name).getD []
  let stale := ext.source_files.foldl
    (fun acc sf =>
      match lookupA prev_mtimes sf with
      | none => acc ++ [sf]
      | some prev_mtime =>
          if prev_mtime ≠ getmtime sf then acc ++ [sf] else acc)
    []
  (tracker, { ext with stale_sources := stale })

/-- Python pickle loading as used by DocTree.__init__ and
DocTool.__create_change_tracker: a missing file raises IOError; a file
whose contents cannot be unpickled raises a non-IOError exception
(cPickle.UnpicklingError, ValueError, EOFError, ...). -/
inductive PickleError where
  | ioError
  | unpicklingError
deriving DecidableEq

/-- The `try: self.pages = pickle.load(...) except IOError:` block of
DocTree.__init__: only IOError is caught (giving the empty page map);
any other exception propagates out of the constructor. -/
def docTreeLoadPages (loaded : Except PickleError (List (String × Page))) :
    Except PickleError (List (String × Page)) :=
  match loaded with
  | .ok m => .ok m
  | .error .ioError => .ok []
  | .error e => .error e

/-- The matching block for `__previous_symbol_maps`. -/
def docTreeLoadSymbolMaps (loaded : Except PickleError SymbolMaps) :
    Except PickleError SymbolMaps :=
  match loaded with
  | .ok m => .ok m
  | .error .ioError => .ok []
  | .error e => .error e

/-- DocTool.__create_change_tracker: a loadable pickle makes the run
incremental; IOError gives a fresh tracker and a non-incremental run; any
other exception propagates. -/
def createChangeTracker (loaded : Except PickleError ChangeTracker) :
    Except PickleError (ChangeTracker × Bool) :=
  match loaded with
  | .ok t => .ok (t, true)
  | .error .ioError => .ok (⟨[]⟩, false)
  | .error e => .error e

/-- Section names of Page.resolve_symbols typed-symbol lists. -/
def typedSymbolsInit : List (SymKind × (String × List HSym)) :=
  [(.base, ("FIXME symbols", [])),
   (.functionSym, ("Functions", [])),
   (.callbackSym, ("Callback Functions", [])),
   (.functionMacroSym, ("Function Macros", [])),
   (.constantSym, ("Constants", [])),
   (.exportedVariableSym, ("Exported Variables", [])),
   (.structSym, ("Data Structures", [])),
   (.enumSym, ("Enumerations", [])),
   (.aliasSym, ("Aliases", [])),
   (.signalSym, ("Signals", [])),
   (.propertySym, ("Properties", [])),
   (.vfunctionSym, ("Virtual Methods", [])),
   (.classSym, ("Classes", []))]

/-- Insertion into the typed-symbols table keyed by symbol class. -/
def typedInsert (ts : List (SymKind × (String × List HSym))) (k : SymKind)
    (s : HSym) : List (SymKind × (String × List HSym)) :=
  ts.map (fun e => if e.1 = k then (e.1, (e.2.1, e.2.2 ++ [s])) else e)

/-- Page.__resolve_symbol: rewrite the symbol link to point into this
page, append the symbol to its typed list and to `symbols`, and for a
class or struct symbol with a comment take over its short description and
title. Aliasing of the shared symbol object is not tracked. -/
def resolveSymbolOnPage (page : Page) (s : HSym) : Page :=
  let page :=
    { page with
        typed_symbols := typedInsert page.typed_symbols s.kind s
        symbols := page.symbols ++ [some s] }
  if (s.kind = SymKind.classSym ∨ s.kind = SymKind.structSym) ∧ s.hasComment then
    let page :=
      if truthyS s.commentShort then
        { page with short_description := s.commentShort }
      else page
    if truthyS s.commentTitle then { page with title := s.commentTitle }
    else page
  else page

/-- The `for symbol in new_symbols` loop of __query_extra_symbols; `g` is
the recursive call one level deeper. -/
def queryExtraList
    (g : Page → Option HSym → List HSym → Option (Page × List HSym)) :
    Page → List HSym → List HSym → Option (Page × List HSym)
  | page, [], new_syms => some (page, new_syms)
  | page, s :: rest, new_syms =>
      match g page (some s) (new_syms ++ [s]) with
      | none => none
      | some (page', new_syms') => queryExtraList g page' rest new_syms'

/-- Page.__query_extra_symbols: a falsy symbol does nothing; otherwise
the symbol is resolved onto the page, the `resolving_symbol_signal`
subscribers (here the function `hook`, the concatenation the Python
`sum(...)` performs) yield extra symbols, and each one is appended to
`new_syms` and expanded recursively — with no seen set. Fuel bounds the
recursion depth: `none` means the Python recursion does not finish
(RuntimeError from exceeding the recursion limit on a cyclic hook). -/
def queryExtraSymbols (hook : HSym → List HSym) :
    Nat → Page → Option HSym → List HSym → Option (Page × List HSym)
  | 0 => fun _ _ _ => none
  | fuel + 1 => fun page sym new_syms =>
      match sym with
      | none => some (page, new_syms)
      | some s =>
          queryExtraList (queryExtraSymbols hook fuel)
            (resolveSymbolOnPage page s) (hook s) new_syms

/-- Page.resolve_symbols: initialize the typed symbol lists, query every
listed symbol name from the database (`getSymbol`, the
`doc_tool.get_symbol` collaborator) and expand it through
__query_extra_symbols; finally add every gathered extra symbol to the
page (the source passes the symbol object itself to `add_symbol`, whose
documented argument is the unique name; the name is used here). -/
def pageResolveSymbols (hook : HSym → List HSym)
    (getSymbol : String → Option HSym) (fuel : Nat) (page : Page) :
    Option Page :=
  let page0 := { page with typed_symbols := typedSymbolsInit }
  let step := page0.symbol_names.foldl
    (fun acc name =>
      match acc with
      | none => none
      | some (pg, new_syms) => queryExtraSymbols hook fuel pg (getSymbol name) new_syms)
    (some (page0, []))
  match step with
  | none => none
  | some (pg, new_syms) =>
      some (new_syms.foldl (fun p s => p.add_symbol s.unique_name) pg)

/-- DocTree.persist on the symbol maps: the Page objects stored inside
are pickled through Page.__getstate__ like the page map. -/
def persistSymbolMaps (maps : SymbolMaps) : SymbolMaps :=
  maps.map (fun ke => (ke.1, ke.2.map (fun sp => (sp.1, Page.getstate sp.2))))

/-- Decidable coherence of a loaded page map with the current filesystem
and sitemap: every page is non-stale, its recorded mtime matches the
filesystem (or the file is gone, which __do_build_tree also treats as
reusable), and every declared subpage edge points to a page present in
the map whose recorded owning extension is the one the edge carries. A
map persisted by a completed run over an unchanged source tree satisfies
this. -/
def coherentB (fs : FsT) (m : List (String × Page)) : Bool :=
  m.all (fun kp =>
    !kp.2.is_stale &&
    (match lookupA fs kp.1 with
     | some fi => fi.mtime == kp.2.mtime
     | none => true) &&
    kp.2.subpages.all (fun qe =>
      match lookupA m qe.1 with
      | some p' => p'.extension_name == qe.2
      | none => false))

/-- Empty markdown document. -/
def astEmpty : MdNode := .mk "Document" "" "" 1 1 []

/-- Document whose single list item is an empty link labelled `S`: the
hotdoc syntax listing symbol `S` on the page. -/
def astSymS : MdNode :=
  .mk "Document" "" "" 1 1
    [.mk "List" "" "" 1 1
      [.mk "Item" "" "" 1 1
        [.mk "Paragraph" "" "" 1 1
          [.mk "Link" "" "" 1 1 [.mk "Text" "" "S" 1 1 []]]]]]

/-- Index document with two heading links to the subpages a.md and
b.md. -/
def astIndex : MdNode :=
  .mk "Document" "" "" 1 2
    [.mk "Heading" "" "" 1 1
       [.mk "Link" "a" "" 1 1 [.mk "Text" "" "A" 1 1 []]],
     .mk "Heading" "" "" 2 2
       [.mk "Link" "b" "" 2 2 [.mk "Text" "" "B" 2 2 []]]]

/-- Run-1 filesystem of the symbol-migration scenario: index i links to
pages a and b, `S` is listed on page a, page b is empty. -/
def c1Fs1 : FsT :=
  [("i", ⟨1, astIndex, []⟩), ("a", ⟨1, astSymS, []⟩), ("b", ⟨1, astEmpty, []⟩)]

/-- Run-2 filesystem: page b was edited (new mtime) and now lists `S`;
pages i and a are untouched. -/
def c1Fs2 : FsT :=
  [("i", ⟨1, astIndex, []⟩), ("a", ⟨1, astSymS, []⟩), ("b", ⟨2, astSymS, []⟩)]

/-- A DocTree started with no prior state. -/
def emptyTreeState : TreeState := ⟨[], []⟩

/-- Run 1 of the migration scenario: fresh DocTree, non-incremental. -/
def c1Run1 : Option (TreeState × SymbolMaps × List String × Page) :=
  buildTree "" c1Fs1 [] false [] 4 emptyTreeState "i" none

def c1St1 : TreeState := (c1Run1.map (fun r => r.1)).getD emptyTreeState

def c1Maps1 : SymbolMaps := (c1Run1.map (fun r => r.2.1)).getD []

/-- Literal value of the persisted run-1 index page (computed by the
pipeline; the bridging equalities below prove it). -/
def c1PageIP : Page :=
  { symbol_names := [], subpages := [("a", none), ("b", none)],
    link := ⟨"i.html", "i", "i"⟩, title := none, short_description := none,
    first_header := some "", first_paragraph := none, source_file := "i",
    output_attrs := none, extension_name := none, is_stale := false,
    ast := none, headers := [], reference_map := [], typed_symbols := [],
    symbols := [], formatted_contents := none, detailed_description := none,
    mtime := 1 }

/-- Literal value of the persisted run-1 page a (it declares S). -/
def c1PageAP : Page :=
  { symbol_names := ["S"], subpages := [], link := ⟨"a.html", "a", "a"⟩,
    title := none, short_description := none, first_header := none,
    first_paragraph := some "", source_file := "a", output_attrs := none,
    extension_name := none, is_stale := false, ast := none, headers := [],
    reference_map := [], typed_symbols := [], symbols := [],
    formatted_contents := none, detailed_description := none, mtime := 1 }

/-- Literal value of the persisted run-1 page b (empty). -/
def c1PageBP : Page :=
  { symbol_names := [], subpages := [], link := ⟨"b.html", "b", "b"⟩,
    title := none, short_description := none, first_header := none,
    first_paragraph := none, source_file := "b", output_attrs := none,
    extension_name := none, is_stale := false, ast := none, headers := [],
    reference_map := [], typed_symbols := [], symbols := [],
    formatted_contents := none, detailed_description := none, mtime := 1 }

/-- Literal value of the page b reparsed in run 2: stale, now listing S. -/
def c1PageB2 : Page :=
  { symbol_names := ["S"], subpages := [], link := ⟨"b.html", "b", "b"⟩,
    title := none, short_description := none, first_header := none,
    first_paragraph := some "", source_file := "b", output_attrs := none,
    extension_name := none, is_stale := true, ast := some astSymS,
    headers := [], reference_map := [], typed_symbols := [], symbols := [],
    formatted_contents := none, detailed_description := none, mtime := 2 }

/-- The pickled page map run 2 starts from. -/
def c1PagesP : List (String × Page) :=
  [("i", c1PageIP), ("a", c1PageAP), ("b", c1PageBP)]

/-- The pickled symbol maps run 2 starts from: S owned by page a. -/
def c1MapsP : SymbolMaps := [("S", [("a", c1PageAP)])]

/-- Run 2: started from the pickled page map and symbol maps of run 1,
incremental because a change tracker was loadable. -/
def c1Run2 : Option (TreeState × SymbolMaps × List String × Page) :=
  buildTree "" c1Fs2 [] true c1MapsP 4 ⟨c1PagesP, []⟩ "i" none

def c1Pages2 : List (String × Page) := (c1Run2.map (fun r => r.1.pages)).getD []

def c1Maps2 : SymbolMaps := (c1Run2.map (fun r => r.2.1)).getD []

def c1Moved : List String := (c1Run2.map (fun r => r.2.2.1)).getD []

/-- One-file filesystem for the PageParser claims. -/
def c10Fs : FsT := [("a.md", ⟨1, astEmpty, []⟩)]

/-- The page PageParser.parse yields for a.md. -/
def c10Page : Page :=
  ((parsePage "" c10Fs [] [] "a.md" none).2).getD (Page.init [] "" none none)

/-- A symbol whose expansion hook yields itself: the smallest cyclic
extension hook. -/
def cycSym : HSym := ⟨"foo", .functionSym, ⟨"", "", ""⟩, false, none, none⟩

/-- Cyclic `resolving_symbol_signal` subscriber: every resolved symbol
reports one extra symbol, `cycSym`, again. -/
def cycHook : HSym → List HSym := fun _ => [cycSym]

/-- Symbol database returning `cycSym` for every name. -/
def cycGetSymbol : String → Option HSym := fun _ => some cycSym

/-- A page listing the symbol foo. -/
def cycPage : Page := (Page.init [] "cyc.md" none none).add_symbol "foo"

/-- Leaf page Z of the traversal example. -/
def c7Z : Page := Page.init [] "Z" none none

/-- Page X with declared subpage Z. -/
def c7X : Page := { Page.init [] "X" none none with subpages := [("Z", none)] }

/-- Leaf page Y. -/
def c7Y : Page := Page.init [] "Y" none none

/-- Root R with declared subpages X then Y. -/
def c7R : Page :=
  { Page.init [] "R" none none with subpages := [("X", none), ("Y", none)] }

/-- Page map of the traversal example. -/
def c7Pages : List (String × Page) :=
  [("R", c7R), ("X", c7X), ("Y", c7Y), ("Z", c7Z)]

/-- Two pages with distinct source files, both declaring one symbol. -/
def w2Pa : Page := Page.init [] "wa.md" none none

def w2Pb : Page := Page.init [] "wb.md" none none

/-- Filesystem for the idempotence witness: one file r, unchanged. -/
def c4Fs : FsT := [("r", ⟨1, astEmpty, []⟩)]

/-- Page map of a completed first run over c4Fs. -/
def c4M : List (String × Page) := [("r", Page.init c4Fs "r" none none)]

/-- Result of the second run started from the persisted first run. -/
def c4Res : TreeState × SymbolMaps × List String × Page :=
  (buildTree "" c4Fs [] false [] 2 ⟨persistPages c4M, []⟩ "r" none).getD
    (⟨[], []⟩, [], [], Page.init [] "" none none)

section Lemmas

theorem lookupA_insertA {α : Type} (m : List (String × α)) (k k' : String)
    (v : α) :
    lookupA (insertA m k v) k' = if k = k' then some v else lookupA m k' := by
  induction m with
  | nil =>
      by_cases h : k = k' <;> simp [insertA, lookupA, h]
  | cons hd tl ih =>
      obtain ⟨hk, hv⟩ := hd
      by_cases h1 : hk = k
      · subst h1
        by_cases h2 : hk = k' <;> simp [insertA, lookupA, h2]
      · by_cases h2 : hk = k'
        · subst h2
          have : ¬ k = hk := fun h => h1 h.symm
          simp [insertA, lookupA, h1, this]
        · simp [insertA, lookupA, h1, h2, ih]

theorem insertA_self {α : Type} (m : List (String × α)) (k : String) (v : α)
    (h : lookupA m k = some v) : insertA m k v = m := by
  induction m with
  | nil => simp [lookupA] at h
  | cons hd tl ih =>
      obtain ⟨hk, hv⟩ := hd
      by_cases h1 : hk = k
      · subst h1
        simp [lookupA] at h
        simp [insertA, h]
      · simp [lookupA, h1] at h
        simp [insertA, h1, ih h]

theorem lookupA_mem {α : Type} (m : List (String × α)) (k : String) (v : α)
    (h : lookupA m k = some v) : (k, v) ∈ m := by
  induction m with
  | nil => simp [lookupA] at h
  | cons hd tl ih =>
      obtain ⟨hk, hv⟩ := hd
      by_cases h1 : hk = k
      · subst h1
        simp [lookupA] at h
        simp [h]
      · simp [lookupA, h1] at h
        simp [ih h]

theorem lookupA_map_getstate (m : List (String × Page)) (s : String) :
    lookupA (persistPages m) s = (lookupA m s).map Page.getstate := by
  induction m with
  | nil => simp [persistPages, lookupA]
  | cons hd tl ih =>
      by_cases h : hd.1 = s
      · simp [persistPages, lookupA, h]
      · simp only [persistPages, List.map_cons, lookupA, h, if_false]
        simpa [persistPages] using ih

theorem osAdd_mem (l : List String) (x y : String) (h : x ∈ l) :
    x ∈ osAdd l y := by
  by_cases hy : y ∈ l <;> simp [osAdd, hy, h]

theorem osAdd_mem_self (l : List String) (y : String) : y ∈ osAdd l y := by
  by_cases hy : y ∈ l <;> simp [osAdd, hy]

end Lemmas

section StalenessPreservation

theorem add_symbol_is_stale (p : Page) (n : String) :
    (p.add_symbol n).is_stale = p.is_stale := rfl

theorem parsePara_is_stale (p : Page) (n : MdNode) :
    (parsePara p n).1.is_stale = p.is_stale := by
  unfold parsePara
  cases n.children.head? with
  | none => rfl
  | some link_node =>
      dsimp only
      split
      · exact add_symbol_is_stale _ _
      · rfl

theorem foldl_is_stale {β : Type} (f : Page → β → Page)
    (h : ∀ pg b, (f pg b).is_stale = pg.is_stale) :
    ∀ (l : List β) (pg : Page), (l.foldl f pg).is_stale = pg.is_stale := by
  intro l
  induction l with
  | nil => intro pg; rfl
  | cons b bs ih =>
      intro pg
      simp only [List.foldl_cons]
      rw [ih, h]

theorem parseListNode_is_stale (p : Page) (n : MdNode) :
    (parseListNode p n).is_stale = p.is_stale := by
  unfold parseListNode
  apply foldl_is_stale
  intro pg child
  apply foldl_is_stale
  intro pg2 g
  split
  · exact parsePara_is_stale _ _
  · rfl

theorem checkLinksNode_is_stale (pfx : String) (fs : FsT) (wkn : WknT)
    (n : MdNode) (par : Option MdNode) (st : List String × Page) :
    (checkLinksNode pfx fs wkn n par st).2.is_stale = st.2.is_stale := by
  obtain ⟨seen, page⟩ := st
  unfold checkLinksNode
  dsimp only
  repeat' split
  all_goals rfl

mutual

theorem checkLinks_is_stale (pfx : String) (fs : FsT) (wkn : WknT) :
    ∀ (n : MdNode) (par : Option MdNode) (st : List String × Page),
      (checkLinks pfx fs wkn n par st).2.is_stale = st.2.is_stale
  | .mk t d l sp ep cs, par, st => by
      rw [checkLinks]
      rw [checkLinksList_is_stale pfx fs wkn cs]
      exact checkLinksNode_is_stale pfx fs wkn _ par st
termination_by n _ _ => sizeOf n

theorem checkLinksList_is_stale (pfx : String) (fs : FsT) (wkn : WknT) :
    ∀ (l : List MdNode) (par : Option MdNode) (st : List String × Page),
      (checkLinksList pfx fs wkn l par st).2.is_stale = st.2.is_stale
  | [], _, _ => rfl
  | n :: rest, par, st => by
      rw [checkLinksList]
      rw [checkLinksList_is_stale pfx fs wkn rest]
      exact checkLinks_is_stale pfx fs wkn n par st
termination_by l _ _ => sizeOf l

end

theorem parsePage_none (pfx : String) (fs : FsT) (wkn : WknT)
    (seen : List String) (sf : String) (e : Option String)
    (h : lookupA fs sf = none) :
    parsePage pfx fs wkn seen sf e = (seen, none) := by
  unfold parsePage
  rw [h]

theorem parsePage_is_stale (pfx : String) (fs : FsT) (wkn : WknT)
    (seen : List String) (sf : String) (e : Option String) (p : Page)
    (h : (parsePage pfx fs wkn seen sf e).2 = some p) :
    p.is_stale = true := by
  unfold parsePage at h
  cases hfs : lookupA fs sf with
  | none => rw [hfs] at h; simp at h
  | some fi =>
      rw [hfs] at h
      dsimp only at h
      have hp := Option.some.inj h
      rw [← hp]
      rw [checkLinks_is_stale]
      dsimp only
      rw [foldl_is_stale]
      · rfl
      · intro pg c
        split
        · exact parseListNode_is_stale _ _
        · rfl

theorem parsePage_isSome (pfx : String) (fs : FsT) (wkn : WknT)
    (seen : List String) (sf : String) (e : Option String) :
    (parsePage pfx fs wkn seen sf e).2.isSome = (lookupA fs sf).isSome := by
  unfold parsePage
  cases h : lookupA fs sf <;> simp

end StalenessPreservation

theorem stale_fold_eq (prev : List (String × Int)) (g : String → Int) :
    ∀ (l : List String) (acc : List String),
      l.foldl
        (fun acc2 sf =>
          match lookupA prev sf with
          | none => acc2 ++ [sf]
          | some prev_mtime =>
              if prev_mtime ≠ g sf then acc2 ++ [sf] else acc2)
        acc
      = acc ++ l.filter (fun sf => decide (lookupA prev sf ≠ some (g sf))) := by
  intro l
  induction l with
  | nil => intro acc; simp
  | cons sf rest ih =>
      intro acc
      simp only [List.foldl_cons, List.filter_cons]
      cases hl : lookupA prev sf with
      | none =>
          rw [ih]
          simp
      | some pm =>
          by_cases hpm : pm = g sf
          · subst hpm
            rw [if_neg (by simp), ih]
            simp
          · rw [if_pos (by simp [hpm]), ih]
            simp [hpm]

/-- C5: the change tracker reports a source file of an extension as stale
exactly when the file is among the extension's current sources and the
modification times recorded for that extension at the previous run either
do not list the file or list it with a time different from the current
one. -/
theorem changeTracker_stale_iff (tracker : ChangeTracker)
    (getmtime : String → Int) (ext : Extension) (p : String) :
    p ∈ (markExtensionStaleSources tracker getmtime ext).2.stale_sources ↔
      p ∈ ext.source_files ∧
        lookupA ((lookupA tracker.exts_mtimes ext.ext_name).getD []) p ≠
          some (getmtime p) := by
  unfold markExtensionStaleSources
  dsimp only
  rw [stale_fold_eq]
  simp [List.mem_filter]

/-- C6: computing the stale set commits nothing — the tracker returned by
mark_extension_stale_sources is the input tracker, so the recorded
baseline of every category is unchanged; the baseline of a category is
replaced with the current mtimes only by the separate
update_extension_sources_mtimes operation, and that replacement touches
no other category. -/
theorem changeTracker_query_no_commit (tracker : ChangeTracker)
    (getmtime : String → Int) (ext : Extension) :
    (markExtensionStaleSources tracker getmtime ext).1 = tracker ∧
    (∀ c, c ≠ ext.ext_name →
        lookupA (updateExtensionSourcesMtimes tracker getmtime ext).exts_mtimes c
          = lookupA tracker.exts_mtimes c) ∧
    lookupA (updateExtensionSourcesMtimes tracker getmtime ext).exts_mtimes
        ext.ext_name
      = some (ext.source_files.foldl (fun m sf => insertA m sf (getmtime sf)) []) := by
  refine ⟨rfl, ?_, ?_⟩
  · intro c hc
    unfold updateExtensionSourcesMtimes
    dsimp only
    rw [lookupA_insertA]
    exact if_neg (fun h => hc h.symm)
  · unfold updateExtensionSourcesMtimes
    dsimp only
    rw [lookupA_insertA]
    simp

theorem changeTracker_query_no_commit_witness :
    (markExtensionStaleSources ⟨[("x", [("f", 1)])]⟩ (fun _ => 2)
        ⟨"x", ["f"], []⟩).1 = ⟨[("x", [("f", 1)])]⟩ ∧
    lookupA (updateExtensionSourcesMtimes ⟨[("x", [("f", 1)])]⟩ (fun _ => 2)
        ⟨"x", ["f"], []⟩).exts_mtimes "y"
      = lookupA (ChangeTracker.mk [("x", [("f", 1)])]).exts_mtimes "y" :=
  ⟨(changeTracker_query_no_commit ⟨[("x", [("f", 1)])]⟩ (fun _ => 2)
      ⟨"x", ["f"], []⟩).1,
   (changeTracker_query_no_commit ⟨[("x", [("f", 1)])]⟩ (fun _ => 2)
      ⟨"x", ["f"], []⟩).2.1 "y" (by decide)⟩

/-- C3: persisting the page map and loading it back yields, for every
key, the getstate image of the stored page; getstate keeps source_file,
subpages, symbol_names, extension_name, link and mtime identical, resets
is_stale to false whatever it was, and drops the transient fields (ast,
output attributes, resolved symbols, typed symbols, headers, formatted
contents, detailed description) to their defaults. -/
theorem persist_roundtrip :
    (∀ (m : List (String × Page)) (s : String),
        lookupA (persistPages m) s = (lookupA m s).map Page.getstate) ∧
    ∀ p : Page,
      (Page.getstate p).source_file = p.source_file ∧
      (Page.getstate p).subpages = p.subpages ∧
      (Page.getstate p).symbol_names = p.symbol_names ∧
      (Page.getstate p).extension_name = p.extension_name ∧
      (Page.getstate p).link = p.link ∧
      (Page.getstate p).mtime = p.mtime ∧
      (Page.getstate p).is_stale = false ∧
      (Page.getstate p).ast = none ∧
      (Page.getstate p).output_attrs = none ∧
      (Page.getstate p).symbols = [] ∧
      (Page.getstate p).typed_symbols = [] ∧
      (Page.getstate p).headers = [] ∧
      (Page.getstate p).formatted_contents = none ∧
      (Page.getstate p).detailed_description = none :=
  ⟨lookupA_map_getstate,
   fun _ => ⟨rfl, rfl, rfl, rfl, rfl, rfl, rfl, rfl, rfl, rfl, rfl, rfl, rfl, rfl⟩⟩

/-- C10: PageParser.parse returns None exactly when the source file does
not exist (no exception escapes: the existence test happens before the
file is opened), and every page it does return has is_stale true (set by
Page.__init__ and touched by no later parsing step). -/
theorem pageParser_parse_contract (pfx : String) (fs : FsT) (wkn : WknT)
    (seen : List String) (sf : String) (e : Option String) :
    (lookupA fs sf = none → parsePage pfx fs wkn seen sf e = (seen, none)) ∧
    (parsePage pfx fs wkn seen sf e).2.isSome = (lookupA fs sf).isSome ∧
    ∀ p, (parsePage pfx fs wkn seen sf e).2 = some p → p.is_stale = true :=
  ⟨parsePage_none pfx fs wkn seen sf e,
   parsePage_isSome pfx fs wkn seen sf e,
   fun _ h => parsePage_is_stale pfx fs wkn seen sf e _ h⟩

theorem pageParser_parse_contract_witness :
    parsePage "" c10Fs [] [] "missing.md" none = ([], none) ∧
    c10Page.is_stale = true :=
  ⟨(pageParser_parse_contract "" c10Fs [] [] "missing.md" none).1 rfl,
   (pageParser_parse_contract "" c10Fs [] [] "a.md" none).2.2 c10Page rfl⟩

/-- C9 (counterexample): a present but corrupt prior state is fatal. The
load blocks of DocTree.__init__ and DocTool.__create_change_tracker catch
IOError only, so an unpickling error raised by corrupt contents
propagates out and the run fails instead of proceeding as a full
rebuild. -/
theorem corruptState_propagates :
    docTreeLoadPages (.error .unpicklingError) = .error .unpicklingError ∧
    docTreeLoadSymbolMaps (.error .unpicklingError) = .error .unpicklingError ∧
    createChangeTracker (.error .unpicklingError) = .error .unpicklingError :=
  ⟨rfl, rfl, rfl⟩

/-- C9 (amended): an absent prior state (IOError on load) is non-fatal:
the page map defaults to empty, the symbol maps to empty, the change
tracker to a fresh one with the run not incremental, and every page the
run then parses starts stale, i.e. the run is a full rebuild. A corrupt
prior state, by contrast, is handled by `corruptState_propagates`. -/
theorem absentState_full_rebuild :
    docTreeLoadPages (.error .ioError) = .ok [] ∧
    docTreeLoadSymbolMaps (.error .ioError) = .ok [] ∧
    createChangeTracker (.error .ioError) = .ok (⟨[]⟩, false) ∧
    ∀ (pfx : String) (fs : FsT) (wkn : WknT) (seen : List String)
      (sf : String) (e : Option String) (p : Page),
      (parsePage pfx fs wkn seen sf e).2 = some p → p.is_stale = true :=
  ⟨rfl, rfl, rfl,
   fun pfx fs wkn seen sf e p h => parsePage_is_stale pfx fs wkn seen sf e p h⟩

theorem absentState_full_rebuild_witness :
    docTreeLoadPages (.error .ioError) = .ok [] ∧ c10Page.is_stale = true :=
  ⟨absentState_full_rebuild.1,
   absentState_full_rebuild.2.2.2 "" c10Fs [] [] "a.md" none c10Page rfl⟩


set_option maxHeartbeats 4000000 in
theorem c1_persist_pages_eval : persistPages c1St1.pages = c1PagesP := rfl

set_option maxHeartbeats 4000000 in
theorem c1_persist_maps_eval : persistSymbolMaps c1Maps1 = c1MapsP := rfl

set_option maxHeartbeats 4000000 in
theorem c1Run2_eval :
    c1Run2 = some (⟨[("i", c1PageIP), ("a", c1PageAP), ("b", c1PageB2)], []⟩,
      [("S", [("a", c1PageAP), ("b", c1PageB2)])], ["S"], c1PageIP) := rfl

theorem c1Pages2_eval :
    c1Pages2 = [("i", c1PageIP), ("a", c1PageAP), ("b", c1PageB2)] := by
  show (c1Run2.map (fun r => r.1.pages)).getD [] = _
  rw [c1Run2_eval]
  rfl

theorem c1Maps2_eval :
    c1Maps2 = [("S", [("a", c1PageAP), ("b", c1PageB2)])] := by
  show (c1Run2.map (fun r => r.2.1)).getD [] = _
  rw [c1Run2_eval]
  rfl

theorem c1Moved_eval : c1Moved = ["S"] := by
  show (c1Run2.map (fun r => r.2.2.1)).getD [] = _
  rw [c1Run2_eval]
  rfl

/-- C1 (counterexample): in the migration scenario — run 1 declares S on
page a (its persisted record carries symbol_names [S]), run 2 starts from
exactly that persisted state with page a untouched and S moved into page
b's source — after run 2's build_tree, page a is NOT stale (the claim
demands is_stale true) and S is still in page a's symbol_names (the claim
demands its removal); S is in page b's symbol_names. -/
theorem symbol_migration_not_invalidated :
    persistPages c1St1.pages = c1PagesP ∧
    (lookupA c1PagesP "a").map Page.symbol_names = some ["S"] ∧
    (lookupA c1Pages2 "a").map Page.is_stale = some false ∧
    (lookupA c1Pages2 "a").map Page.symbol_names = some ["S"] ∧
    (lookupA c1Pages2 "b").map Page.symbol_names = some ["S"] := by
  refine ⟨c1_persist_pages_eval, rfl, ?_, ?_, ?_⟩ <;> rw [c1Pages2_eval] <;> rfl

theorem insertA_mem_keys {α : Type} (m : List (String × α)) (k : String)
    (v : α) : k ∈ (insertA m k v).map Prod.fst := by
  induction m with
  | nil => simp [insertA]
  | cons hd tl ih =>
      by_cases h : hd.1 = k
      · simp [insertA, h]
      · simp only [insertA, h, if_false, List.map_cons, List.mem_cons]
        exact Or.inr ih

theorem addToSymbolMap_keys_mem (maps : SymbolMaps) (page : Page)
    (name : String) :
    page.source_file ∈ symbolMapKeys (addToSymbolMap maps page name) name := by
  unfold addToSymbolMap symbolMapKeys
  rw [lookupA_insertA, if_pos rfl]
  exact insertA_mem_keys _ _ _

theorem keySetNe_of_missing (x : String) (l1 l2 : List String) (h1 : x ∈ l1)
    (h2 : x ∉ l2) : keySetNe l1 l2 = true := by
  simp only [keySetNe, decide_eq_true_eq]
  intro hand
  rcases hand with ⟨hall, -⟩
  rw [List.all_eq_true] at hall
  exact h2 (by simpa using hall x h1)

theorem foldl_mono {α β : Type} (f : α → β → α) (P : α → Prop)
    (hf : ∀ a b, P a → P (f a b)) :
    ∀ (l : List β) (a : α), P a → P (l.foldl f a) := by
  intro l
  induction l with
  | nil => intro a h; exact h
  | cons b bs ih =>
      intro a h
      simp only [List.foldl_cons]
      exact ih _ (hf a b h)

theorem updateSymbolStep_mono (inc : Bool) (prev : SymbolMaps) (pg : Page)
    (acc : SymbolMaps × List String) (name S : String) (h : S ∈ acc.2) :
    S ∈ (updateSymbolStep inc prev pg acc name).2 := by
  unfold updateSymbolStep
  dsimp only
  split
  · exact osAdd_mem _ _ _ h
  · exact h

theorem updateSymbolPage_mono (inc : Bool) (prev : SymbolMaps)
    (acc : SymbolMaps × List String) (kp : String × Page) (S : String)
    (h : S ∈ acc.2) : S ∈ (updateSymbolPage inc prev acc kp).2 := by
  unfold updateSymbolPage
  exact foldl_mono _ (fun a => S ∈ a.2)
    (fun a b hb => updateSymbolStep_mono inc prev kp.2 a b S hb) _ acc h

theorem updateSymbolStep_hits (prev : SymbolMaps) (pg : Page)
    (acc : SymbolMaps × List String) (S : String)
    (hmiss : pg.source_file ∉ symbolMapKeys prev S) :
    S ∈ (updateSymbolStep true prev pg acc S).2 := by
  unfold updateSymbolStep
  dsimp only
  have hmoved : symbolHasMoved true (addToSymbolMap acc.1 pg S) prev S = true := by
    unfold symbolHasMoved
    simp only [not_true, if_false]
    exact keySetNe_of_missing pg.source_file _ _
      (addToSymbolMap_keys_mem acc.1 pg S) hmiss
  rw [if_pos hmoved]
  exact osAdd_mem_self _ _

theorem updateSymbolPage_hits (prev : SymbolMaps) (pg : Page) (S : String)
    (hmiss : pg.source_file ∉ symbolMapKeys prev S) :
    ∀ (names : List String) (acc : SymbolMaps × List String), S ∈ names →
      S ∈ (names.foldl (updateSymbolStep true prev pg) acc).2 := by
  intro names
  induction names with
  | nil => intro acc h; simp at h
  | cons n rest ih =>
      intro acc h
      simp only [List.foldl_cons]
      rcases List.mem_cons.mp h with heq | hrest
      · subst heq
        exact foldl_mono _ (fun a => S ∈ a.2)
          (fun a b hb => updateSymbolStep_mono true prev pg a b S hb) _ _
          (updateSymbolStep_hits prev pg acc S hmiss)
      · exact ih _ hrest

theorem updateSymbolMaps_hits (prev : SymbolMaps) (S k : String) (pb : Page)
    (hnames : S ∈ pb.symbol_names)
    (hmiss : pb.source_file ∉ symbolMapKeys prev S) :
    ∀ (pages : List (String × Page)) (acc : SymbolMaps × List String),
      (k, pb) ∈ pages →
      S ∈ (pages.foldl (updateSymbolPage true prev) acc).2 := by
  intro pages
  induction pages with
  | nil => intro acc h; simp at h
  | cons kp rest ih =>
      intro acc h
      simp only [List.foldl_cons]
      rcases List.mem_cons.mp h with heq | hrest
      · subst heq
        exact foldl_mono _ (fun a => S ∈ a.2)
          (fun a b hb => updateSymbolPage_mono true prev a b S hb) _ _
          (updateSymbolPage_hits prev pb S hmiss pb.symbol_names acc hnames)
      · exact ih _ hrest

/-- C1 (amended): build_tree does not invalidate the former host of a
moved symbol; it only reports the move. In general, for any page listed
in the map that declares S while S's previous-run owners do not include
that page's source file, __update_symbol_maps adds S to the returned
moved-symbols set — and it modifies no page. In the concrete migration
scenario, after run 2 page a stays non-stale with S still in its
symbol_names, S is in page b's symbol_names, and S is reported in the
moved set returned by build_tree. -/
theorem symbol_migration_reported :
    (∀ (prev : SymbolMaps) (pages : List (String × Page)) (S k : String)
       (pb : Page),
        (k, pb) ∈ pages → S ∈ pb.symbol_names →
        pb.source_file ∉ symbolMapKeys prev S →
        S ∈ (updateSymbolMaps true prev pages).2) ∧
    (lookupA c1Pages2 "a").map Page.is_stale = some false ∧
    (lookupA c1Pages2 "a").map Page.symbol_names = some ["S"] ∧
    (lookupA c1Pages2 "b").map Page.symbol_names = some ["S"] ∧
    "S" ∈ c1Moved := by
  refine ⟨?_, ?_, ?_, ?_, ?_⟩
  · intro prev pages S k pb hmem hnames hmiss
    exact updateSymbolMaps_hits prev S k pb hnames hmiss pages ([], []) hmem
  · rw [c1Pages2_eval]; rfl
  · rw [c1Pages2_eval]; rfl
  · rw [c1Pages2_eval]; rfl
  · rw [c1Moved_eval]; exact List.mem_singleton.mpr rfl

theorem symbol_migration_reported_witness :
    "S" ∈ (updateSymbolMaps true c1MapsP [("b", c1PageB2)]).2 :=
  symbol_migration_reported.1 c1MapsP [("b", c1PageB2)] "S" "b" c1PageB2
    (List.mem_singleton.mpr rfl) (by decide) (by decide)

/-- C2 (counterexample): after run 2's build_tree (a legal build), the
dependency map lists S under two owning pages, a and b, and page a's
symbol set still contains S — adding the symbol under page b neither
evicted the map entry of page a nor touched its symbol_names, so a symbol
name is not mapped to at most one page. -/
theorem symbol_map_two_owners :
    symbolMapKeys c1Maps2 "S" = ["a", "b"] ∧
    (lookupA c1Pages2 "a").map Page.symbol_names = some ["S"] ∧
    (lookupA c1Pages2 "b").map Page.symbol_names = some ["S"] := by
  refine ⟨?_, ?_, ?_⟩
  · rw [c1Maps2_eval]; rfl
  · rw [c1Pages2_eval]; rfl
  · rw [c1Pages2_eval]; rfl

/-- C2 (amended): the dependency map maps each symbol name to an ordered
dict of owning pages keyed by source file. __add_to_symbol_map only adds:
after a second page with a different source file is added under the same
name, the first page's entry is still present alongside the new one, and
no other name's entry changes; no page is modified. -/
theorem addToSymbolMap_keeps_owners (m : SymbolMaps) (p1 p2 : Page)
    (name : String)
    (h1 : lookupA ((lookupA m name).getD []) p1.source_file = some p1)
    (hne : p2.source_file ≠ p1.source_file) :
    lookupA ((lookupA (addToSymbolMap m p2 name) name).getD [])
        p1.source_file = some p1 ∧
    lookupA ((lookupA (addToSymbolMap m p2 name) name).getD [])
        p2.source_file = some p2 ∧
    ∀ other, other ≠ name →
      lookupA (addToSymbolMap m p2 name) other = lookupA m other := by
  unfold addToSymbolMap
  rw [lookupA_insertA, if_pos rfl]
  refine ⟨?_, ?_, ?_⟩
  · dsimp only [Option.getD]
    rw [lookupA_insertA, if_neg hne]
    exact h1
  · dsimp only [Option.getD]
    rw [lookupA_insertA, if_pos rfl]
  · intro other hother
    rw [lookupA_insertA, if_neg (fun h => hother h.symm)]

theorem addToSymbolMap_keeps_owners_witness :
    lookupA ((lookupA (addToSymbolMap (addToSymbolMap [] w2Pa "s") w2Pb "s")
        "s").getD []) "wa.md" = some w2Pa ∧
    lookupA ((lookupA (addToSymbolMap (addToSymbolMap [] w2Pa "s") w2Pb "s")
        "s").getD []) "wb.md" = some w2Pb :=
  ⟨(addToSymbolMap_keeps_owners (addToSymbolMap [] w2Pa "s") w2Pa w2Pb "s"
      rfl (by decide)).1,
   (addToSymbolMap_keeps_owners (addToSymbolMap [] w2Pa "s") w2Pa w2Pb "s"
      rfl (by decide)).2.1⟩

theorem queryExtra_cyclic_none :
    ∀ (fuel : Nat) (page : Page) (s : HSym) (acc : List HSym),
      queryExtraSymbols cycHook fuel page (some s) acc = none := by
  intro fuel
  induction fuel with
  | zero => intro page s acc; rfl
  | succ f ih =>
      intro page s acc
      show queryExtraList (queryExtraSymbols cycHook f)
        (resolveSymbolOnPage page s) [cycSym] acc = none
      show (match queryExtraSymbols cycHook f (resolveSymbolOnPage page s)
          (some cycSym) (acc ++ [cycSym]) with
        | none => none
        | some (page', new_syms') =>
            queryExtraList (queryExtraSymbols cycHook f) page' [] new_syms')
        = none
      rw [ih]

/-- C8: the code has no seen set — Page.__query_extra_symbols recurses on
every symbol the resolving hook yields, so with the cyclic hook (each
resolved symbol reporting itself as an extra symbol) the recursion never
completes for any fuel, on any page and any accumulator; in particular
Page.resolve_symbols on a page listing the symbol foo never completes. A
repeated symbol name is expanded again, not treated as already
resolved. -/
theorem cyclic_expansion_diverges :
    (∀ (fuel : Nat) (page : Page) (s : HSym) (acc : List HSym),
        queryExtraSymbols cycHook fuel page (some s) acc = none) ∧
    ∀ fuel : Nat,
      pageResolveSymbols cycHook cycGetSymbol fuel cycPage = none := by
  refine ⟨queryExtra_cyclic_none, ?_⟩
  intro fuel
  unfold pageResolveSymbols
  dsimp only
  rw [show ({ cycPage with typed_symbols := typedSymbolsInit } : Page).symbol_names
      = ["foo"] from rfl]
  simp only [List.foldl_cons, List.foldl_nil]
  rw [show cycGetSymbol "foo" = some cycSym from rfl]
  rw [queryExtra_cyclic_none fuel _ cycSym []]

theorem unfoldList_walkList (pages : List (String × Page))
    (g1 : Page → Option PTree) (g2 : Page → Option (List Page))
    (hg : ∀ p, (g1 p).map PTree.preorder = (g2 p).map (p :: ·)) :
    ∀ l, (unfoldList pages g1 l).map preorderList = walkList pages g2 l := by
  intro l
  induction l with
  | nil => rfl
  | cons hd tl ihl =>
      obtain ⟨name, e⟩ := hd
      simp only [unfoldList, walkList]
      cases lookupA pages name with
      | none => rfl
      | some cpage =>
          dsimp only
          have h1 := hg cpage
          cases hu : g1 cpage with
          | none =>
              rw [hu] at h1
              cases hw : g2 cpage with
              | none => rfl
              | some sub =>
                  rw [hw] at h1
                  simp at h1
          | some t =>
              rw [hu] at h1
              cases hw : g2 cpage with
              | none =>
                  rw [hw] at h1
                  simp at h1
              | some sub =>
                  rw [hw] at h1
                  simp only [Option.map_some'] at h1
                  have h1' := Option.some.inj h1
                  cases hu2 : unfoldList pages g1 tl with
                  | none =>
                      rw [hu2] at ihl
                      cases hw2 : walkList pages g2 tl with
                      | none => rfl
                      | some restL =>
                          rw [hw2] at ihl
                          simp at ihl
                  | some ts =>
                      rw [hu2] at ihl
                      cases hw2 : walkList pages g2 tl with
                      | none =>
                          rw [hw2] at ihl
                          simp at ihl
                      | some restL =>
                          rw [hw2] at ihl
                          simp only [Option.map_some'] at ihl
                          have h2' := Option.some.inj ihl
                          simp [preorderList, h1', h2']

theorem unfoldTree_walkSub (pages : List (String × Page)) :
    ∀ (fuel : Nat) (p : Page),
      (unfoldTree pages fuel p).map PTree.preorder
        = (walkSub pages fuel p).map (p :: ·) := by
  intro fuel
  induction fuel with
  | zero => intro p; rfl
  | succ f ih =>
      intro p
      show ((unfoldList pages (unfoldTree pages f) p.subpages).map
              (PTree.node p)).map PTree.preorder
          = (walkList pages (walkSub pages f) p.subpages).map (p :: ·)
      rw [← unfoldList_walkList pages (unfoldTree pages f) (walkSub pages f)
            ih p.subpages]
      cases unfoldList pages (unfoldTree pages f) p.subpages with
      | none => rfl
      | some cs => simp [PTree.preorder]

/-- C7: DocTree.walk is pre-order traversal — on every page map, fuel and
root it equals the pre-order listing (root first, then each subpage's
entire subtree, in declared subpage order) of the declared tree unfolded
from the root; in particular on root R with subpages [X, Y] in that
order, where X has subpage [Z], it yields exactly [R, X, Z, Y]. -/
theorem walk_is_preorder :
    (∀ (pages : List (String × Page)) (fuel : Nat) (root : Page),
        walk pages fuel root
          = (unfoldTree pages fuel root).map PTree.preorder) ∧
    walk c7Pages 3 c7R = some [c7R, c7X, c7Z, c7Y] := by
  constructor
  · intro pages fuel root
    unfold walk
    exact (unfoldTree_walkSub pages fuel root).symm
  · rfl

theorem coherentB_spec (fs : FsT) (m : List (String × Page))
    (h : coherentB fs m = true) (s : String) (p : Page)
    (hl : lookupA m s = some p) :
    p.is_stale = false ∧
    (∀ fi, lookupA fs s = some fi → fi.mtime = p.mtime) ∧
    (∀ q e', (q, e') ∈ p.subpages →
        ∃ p', lookupA m q = some p' ∧ p'.extension_name = e') := by
  have hmem := lookupA_mem m s p hl
  rw [coherentB, List.all_eq_true] at h
  have hc := h (s, p) hmem
  simp only [Bool.and_eq_true] at hc
  obtain ⟨⟨hstale, hmt⟩, hsub⟩ := hc
  refine ⟨by simpa using hstale, ?_, ?_⟩
  · intro fi hfi
    rw [hfi] at hmt
    simpa using hmt
  · intro q e' hqe
    rw [List.all_eq_true] at hsub
    have hq := hsub (q, e') hqe
    cases hlq : lookupA m q with
    | none =>
        rw [hlq] at hq
        simp at hq
    | some p' =>
        rw [hlq] at hq
        refine ⟨p', rfl, ?_⟩
        simpa using hq

theorem doBuildTree_coherent (pfx : String) (fs : FsT) (wkn : WknT) :
    ∀ fuel : Nat,
      (∀ (m : List (String × Page)) (seen : List String) (s : String)
         (e : Option String) (st' : TreeState),
          coherentB fs m = true →
          (∃ p, lookupA m s = some p ∧ p.extension_name = e) →
          doBuildTree pfx fs wkn fuel ⟨m, seen⟩ s e = some st' →
          st' = ⟨m, seen⟩) ∧
      (∀ (m : List (String × Page)) (seen : List String)
         (l : List (String × Option String)) (st' : TreeState),
          coherentB fs m = true →
          (∀ q e', (q, e') ∈ l →
              ∃ p', lookupA m q = some p' ∧ p'.extension_name = e') →
          doBuildTreeList (doBuildTree pfx fs wkn fuel) ⟨m, seen⟩ l
            = some st' →
          st' = ⟨m, seen⟩) := by
  intro fuel
  induction fuel with
  | zero =>
      constructor
      · intro m seen s e st' _ _ hrun
        exact absurd hrun (by simp [doBuildTree])
      · intro m seen l
        cases l with
        | nil =>
            intro st' _ _ hrun
            exact (Option.some.inj hrun).symm
        | cons hd tl =>
            intro st' _ _ hrun
            obtain ⟨q, e'⟩ := hd
            simp [doBuildTreeList, doBuildTree] at hrun
  | succ f ih =>
      have htree : ∀ (m : List (String × Page)) (seen : List String)
          (s : String) (e : Option String) (st' : TreeState),
          coherentB fs m = true →
          (∃ p, lookupA m s = some p ∧ p.extension_name = e) →
          doBuildTree pfx fs wkn (f + 1) ⟨m, seen⟩ s e = some st' →
          st' = ⟨m, seen⟩ := by
        intro m seen s e st' hcoh hex hrun
        obtain ⟨p, hlp, hep⟩ := hex
        have hc := coherentB_spec fs m hcoh s p hlp
        have hreuse : doBuildTree pfx fs wkn (f + 1) ⟨m, seen⟩ s e
            = doBuildTreeList (doBuildTree pfx fs wkn f)
                ⟨insertA m s p, seen⟩ p.subpages := by
          show (match
              (match lookupA m s with
               | some epage =>
                   if e = epage.extension_name then
                     match lookupA fs s with
                     | some fi =>
                         if fi.mtime = epage.mtime then some epage else none
                     | none => some epage
                   else none
               | none => none : Option Page) with
            | some page =>
                doBuildTreeList (doBuildTree pfx fs wkn f)
                  ⟨insertA m s page, seen⟩ page.subpages
            | none =>
                match parsePage pfx fs wkn seen s e with
                | (_, none) => none
                | (seen', some page) =>
                    doBuildTreeList (doBuildTree pfx fs wkn f)
                      ⟨insertA m s page, seen'⟩ page.subpages) = _
          rw [hlp]
          dsimp only
          rw [if_pos hep.symm]
          cases hfs : lookupA fs s with
          | none => rfl
          | some fi =>
              dsimp only
              rw [if_pos (hc.2.1 fi hfs)]
        rw [hreuse] at hrun
        rw [insertA_self m s p hlp] at hrun
        exact ih.2 m seen p.subpages st' hcoh
          (fun q e' hq => hc.2.2 q e' hq) hrun
      refine ⟨htree, ?_⟩
      intro m seen l
      induction l with
      | nil =>
          intro st' _ _ hrun
          exact (Option.some.inj hrun).symm
      | cons hd tl ihl =>
          intro st' hcoh hedges hrun
          obtain ⟨q, e'⟩ := hd
          have hq := hedges q e' (List.mem_cons_self _ _)
          simp only [doBuildTreeList] at hrun
          cases hstep : doBuildTree pfx fs wkn (f + 1) ⟨m, seen⟩ q e' with
          | none =>
              rw [hstep] at hrun
              simp at hrun
          | some st1 =>
              rw [hstep] at hrun
              have h1 : st1 = ⟨m, seen⟩ := htree m seen q e' st1 hcoh hq hstep
              subst h1
              exact ihl st' hcoh
                (fun q2 e2 h2 => hedges q2 e2 (List.mem_cons_of_mem _ h2)) hrun

/-- C4: reconciliation is idempotent. A second build_tree run started
from the persisted page map of a completed run, with no source file
changed (coherentB: every stored mtime still matches the filesystem and
every declared subpage edge points to a stored page owned by the recorded
extension), reuses every page: the resulting page map is exactly the
loaded one, and since persistence resets staleness, no page in it is
stale. -/
theorem reconciliation_idempotent (pfx : String) (fs : FsT) (wkn : WknT)
    (inc : Bool) (prev : SymbolMaps) (fuel : Nat) (M : List (String × Page))
    (s0 : String) (res : TreeState × SymbolMaps × List String × Page)
    (hcoh : coherentB fs (persistPages M) = true)
    (hroot : (lookupA (persistPages M) s0).map Page.extension_name
        = some none)
    (hrun : buildTree pfx fs wkn inc prev fuel ⟨persistPages M, []⟩ s0 none
        = some res) :
    res.1.pages = persistPages M ∧
    ∀ k p, lookupA res.1.pages k = some p → p.is_stale = false := by
  have hex : ∃ p, lookupA (persistPages M) s0 = some p ∧
      p.extension_name = none := by
    cases hl : lookupA (persistPages M) s0 with
    | none => rw [hl] at hroot; simp at hroot
    | some p =>
        rw [hl] at hroot
        exact ⟨p, rfl, by simpa using hroot⟩
  unfold buildTree at hrun
  cases hstep : doBuildTree pfx fs wkn fuel ⟨persistPages M, []⟩ s0 none with
  | none =>
      rw [hstep] at hrun
      simp at hrun
  | some st' =>
      rw [hstep] at hrun
      have hst : st' = ⟨persistPages M, []⟩ :=
        (doBuildTree_coherent pfx fs wkn fuel).1 (persistPages M) [] s0 none
          st' hcoh hex hstep
      subst hst
      dsimp only at hrun
      obtain ⟨proot, hproot, -⟩ := hex
      rw [hproot] at hrun
      have hres := (Option.some.inj hrun).symm
      have hpages : res.1.pages = persistPages M := by rw [hres]
      refine ⟨hpages, ?_⟩
      intro k p hk
      rw [hpages, lookupA_map_getstate] at hk
      cases hM : lookupA M k with
      | none => rw [hM] at hk; simp at hk
      | some q =>
          rw [hM] at hk
          simp only [Option.map_some'] at hk
          rw [← Option.some.inj hk]
          rfl

set_option maxHeartbeats 1000000 in
theorem reconciliation_idempotent_witness :
    c4Res.1.pages = persistPages c4M :=
  (reconciliation_idempotent "" c4Fs [] false [] 2 c4M "r" c4Res rfl rfl
    rfl).1
